import Mathlib

/-
  Verification development for the IdeaGraph relation-discovery pipeline
  (IdeaGraph.Agents/IdeaGraph.Agents.py, CoreAgent) and the FastAPI
  relation endpoint (IdeaGraph.FastAPI/api/main.py, add_relation).

  The Python code is shallowly embedded: external services (OpenAI
  embedding/chat, the ChromaDB collections) are oracles carried in an
  `Env` record, mutable collection state is threaded explicitly, Python
  exceptions are `Except`/`Option` values, and floats are `ℚ` (exact)
  except for the embedding-normalization analysis, which is over `ℝ`.
-/

set_option maxRecDepth 8000

namespace IdeaGraph

/-- Values of a parsed JSON object as the classifier returns them:
the fields the pipeline touches are strings (`relation_type`,
`description`) and numbers (`confidence`). -/
inductive JVal where
  | str : String → JVal
  | num : ℚ → JVal
  deriving DecidableEq

/-- A parsed JSON object (what `json.loads` yields for a JSON object):
an association list of fields.  Python dict truthiness is emptiness of
this list; a missing key raises `KeyError` on subscript access. -/
abbrev JObj := List (String × JVal)

/-- The Python exceptions the pipeline can raise and catch: `KeyError`
(missing dict key), `TypeError` (comparing a str to a float),
store/read-write errors, embedding-provider errors, HTTP errors. -/
inductive PErr where
  | keyError
  | typeError
  | storeError
  | embedError
  | httpError
  deriving DecidableEq

/-- Python dict subscript access `obj[k]`: the value, or `KeyError`. -/
def jget (j : JObj) (k : String) : Except PErr JVal :=
  match j.find? (fun p => decide (p.1 = k)) with
  | some p => Except.ok p.2
  | none => Except.error PErr.keyError

/-- Python `obj.get(k, d)`: the value, or the default `d` if missing. -/
def jgetD (j : JObj) (k : String) (d : JVal) : JVal :=
  match j.find? (fun p => decide (p.1 = k)) with
  | some p => p.2
  | none => d

/-- Python string interpolation of a JSON value (an f-string renders a
str as itself; a number via its decimal representation). -/
def jvalFormat : JVal → String
  | JVal.str s => s
  | JVal.num q => toString q

/-- A relation record as `CoreAgent.store_relation` builds its
metadata: source, target, type, weight (the classifier confidence),
description, creation timestamp and the fixed provenance tag. -/
structure RelationRec where
  source_id : String
  target_id : String
  relation_type : String
  weight : ℚ
  description : String
  created_at : String
  created_by : String
  deriving DecidableEq

/-- The "relations" ChromaDB collection: records keyed by their id. -/
abbrev RelStore := List (String × RelationRec)

/-- The composite relation identity `f"{source_id}->{target_id}:{relation_type}"`
computed by `store_relation` (agent) and `add_relation` (API). -/
def relId (source_id target_id relation_type : String) : String :=
  source_id ++ "->" ++ target_id ++ ":" ++ relation_type

/-- ChromaDB `Collection.upsert` on a single id: the record stored
under that key is replaced (or inserted if absent). -/
def upsertRel (store : RelStore) (id : String) (rec : RelationRec) : RelStore :=
  store.filter (fun p => decide (p.1 ≠ id)) ++ [(id, rec)]

/-- The metadata record `store_relation` assembles (lines 207-215),
with the current timestamp and the fixed `created_by = "CoreAgent"`. -/
def mkCoreRelation (source_id target_id relation_type : String)
    (confidence : ℚ) (description now : String) : RelationRec :=
  ⟨source_id, target_id, relation_type, confidence, description, now, "CoreAgent"⟩

/-- `CoreAgent.store_relation` in direct-DB mode (`use_direct_db`,
lines 204-221): computes the composite id and upserts the record into
the "relations" collection. -/
def store_relation (rels : RelStore) (source_id target_id relation_type : String)
    (confidence : ℚ) (description now : String) : RelStore :=
  upsertRel rels (relId source_id target_id relation_type)
    (mkCoreRelation source_id target_id relation_type confidence description now)

/-- The `where` filter of `check_existing_relation`: a record matches
the pair (a, b) when (source=a and target=b) or (source=b and
target=a), regardless of relation type. -/
def relationMatches (a b : String) (r : RelationRec) : Prop :=
  (r.source_id = a ∧ r.target_id = b) ∨ (r.source_id = b ∧ r.target_id = a)

instance (a b : String) (r : RelationRec) : Decidable (relationMatches a b r) := by
  unfold relationMatches
  exact inferInstance

/-- The ids returned by `relations_collection.get(where=...)` inside
`check_existing_relation`. -/
def dedupQueryIds (rels : RelStore) (a b : String) : List String :=
  (rels.filter (fun p => decide (relationMatches a b p.2))).map Prod.fst

/-- Number of stored relation records between the unordered pair
{a, b} (in either direction, any type). -/
def pairCount (rels : RelStore) (a b : String) : Nat :=
  (rels.filter (fun p => decide (relationMatches a b p.2))).length

/-- `CoreAgent.check_existing_relation` (lines 279-305): queries the
relation store for a match in both orderings; returns whether any id
matched; on a store error (`queryFails`) it catches and returns
`false` ("assume it doesn't exist"). -/
def check_existing_relation (queryFails : Bool) (rels : RelStore) (a b : String) : Bool :=
  match (if queryFails then Except.error PErr.storeError
         else Except.ok (dedupQueryIds rels a b) : Except PErr (List String)) with
  | Except.ok ids => decide (0 < ids.length)
  | Except.error _ => false

/-- An idea record as `get_all_ideas` assembles it: id, title and
other metadata, the body document, and the optional embedding. -/
structure Idea where
  id : String
  title : String
  meta : List (String × String)
  document : String
  embedding : Option (List ℚ)
  deriving DecidableEq

/-- Python truthiness test `not embedding or len(embedding) == 0` on
the embedding field (`None` and the empty list are both falsy). -/
def embEmpty : Option (List ℚ) → Bool
  | none => true
  | some l => l.isEmpty

/-- The two ChromaDB collections the agent mutates: "ideas" and
"relations". -/
structure AgentState where
  ideas : List Idea
  relations : RelStore
  deriving DecidableEq

/-- The configuration values the pipeline reads (config.yaml):
`similarity_search.n_results` and `similarity_search.confidence_threshold`.
`use_direct_db` is fixed to the direct-DB store path here; the API
write path is modelled separately (`add_relation`). -/
structure Config where
  n_results : Nat
  confidence_threshold : ℚ

/-- The external world as the pipeline sees it: the embedding provider
(`embed_text`, which raises on any provider/transport error), the
similarity query (`ideas_collection.query`, which can raise), the
classifier (`determine_relation`'s outcome per ordered idea pair:
`none` models the caught-exception path returning `None`), whether the
dedup store read raises for a given pair, whether the corpus listing
raises, and the current timestamp. -/
structure Env where
  embed : String → Except PErr (List ℚ)
  queryNeighbors : List ℚ → Nat → Except PErr (List String)
  classify : String → String → Option JObj
  dedupFails : String → String → Bool
  listFails : Bool
  now : String

/-- Outcome of handling one neighbor inside `process_idea`'s loop: the
relation store afterwards, the neighbor ids for which the classifier
was invoked, and the exception (if one escaped this iteration). -/
structure StepResult where
  rels : RelStore
  classified : List String
  err : Option PErr
  deriving DecidableEq

/-- One iteration of the neighbor loop in `CoreAgent.process_idea`
(lines 333-375): skip self; skip when the dedup check reports an
existing relation; call the classifier; Python-truthiness test on the
result; subscript `relation_type` (KeyError if missing); compare to
"none"; subscript `confidence` (KeyError if missing, TypeError in the
`>=` if it is a string); persist when the confidence clears the
threshold. -/
def processOneNeighbor (cfg : Config) (env : Env) (idea_id : String)
    (rels : RelStore) (similar_id : String) : StepResult :=
  if similar_id = idea_id then ⟨rels, [], none⟩
  else if check_existing_relation (env.dedupFails idea_id similar_id) rels idea_id similar_id then
    ⟨rels, [], none⟩
  else
    match env.classify idea_id similar_id with
    | none => ⟨rels, [similar_id], none⟩
    | some relation_info =>
      if relation_info.isEmpty then ⟨rels, [similar_id], none⟩
      else
        match jget relation_info "relation_type" with
        | Except.error e => ⟨rels, [similar_id], some e⟩
        | Except.ok rt =>
          if rt = JVal.str "none" then ⟨rels, [similar_id], none⟩
          else
            match jget relation_info "confidence" with
            | Except.error e => ⟨rels, [similar_id], some e⟩
            | Except.ok (JVal.str _) => ⟨rels, [similar_id], some PErr.typeError⟩
            | Except.ok (JVal.num confidence) =>
              if cfg.confidence_threshold ≤ confidence then
                ⟨store_relation rels idea_id similar_id (jvalFormat rt) confidence
                    (jvalFormat (jgetD relation_info "description" (JVal.str ""))) env.now,
                 [similar_id], none⟩
              else ⟨rels, [similar_id], none⟩

/-- The neighbor loop of `process_idea`: iterate the query results in
order; an exception escaping one iteration aborts the remaining
iterations (it propagates to the surrounding try), keeping the
mutations already made. -/
def processNeighbors (cfg : Config) (env : Env) (idea_id : String)
    (rels : RelStore) : List String → StepResult
  | [] => ⟨rels, [], none⟩
  | b :: rest =>
    let r1 := processOneNeighbor cfg env idea_id rels b
    match r1.err with
    | some e => ⟨r1.rels, r1.classified, some e⟩
    | none =>
      let r2 := processNeighbors cfg env idea_id r1.rels rest
      ⟨r2.rels, r1.classified ++ r2.classified, r2.err⟩

/-- `ideas_collection.update(ids=[idea_id], embeddings=[emb])`: write
the embedding field of the record(s) under that id; all other fields
and all other records are untouched. -/
def updateEmbeddingInStore (ideas : List Idea) (idea_id : String) (emb : List ℚ) : List Idea :=
  ideas.map (fun it => if it.id = idea_id then { it with embedding := some emb } else it)

/-- `CoreAgent.update_idea_embedding` (lines 266-277): generate the
embedding (any provider error propagates to the caller) and write it
back to the "ideas" collection. -/
def update_idea_embedding (env : Env) (ideas : List Idea) (idea_id document : String) :
    Except PErr (List ℚ × List Idea) :=
  match env.embed document with
  | Except.error e => Except.error e
  | Except.ok v => Except.ok (v, updateEmbeddingInStore ideas idea_id v)

/-- `CoreAgent.process_idea` (lines 307-380): embed if the embedding
is missing or empty (failures here propagate — this step is outside
the inner try); then, under the inner try, run the similarity query
and the neighbor loop; any exception there is caught and logged, so
the function returns normally with the mutations made so far. -/
def process_idea (cfg : Config) (env : Env) (st : AgentState) (idea : Idea) :
    Except PErr AgentState :=
  match (if embEmpty idea.embedding then
           update_idea_embedding env st.ideas idea.id idea.document
         else Except.ok (idea.embedding.getD [], st.ideas)) with
  | Except.error e => Except.error e
  | Except.ok (embedding, ideas1) =>
    match env.queryNeighbors embedding (cfg.n_results + 1) with
    | Except.error _ => Except.ok ⟨ideas1, st.relations⟩
    | Except.ok neighbor_ids =>
      Except.ok ⟨ideas1, (processNeighbors cfg env idea.id st.relations neighbor_ids).rels⟩

/-- `CoreAgent.get_all_ideas` (lines 248-264): list the "ideas"
collection; on any store error, catch it and return the empty list. -/
def get_all_ideas (env : Env) (st : AgentState) : List Idea :=
  if env.listFails then [] else st.ideas

/-- The per-idea loop of `run_once` (lines 399-406): process each idea
of the snapshot in order, catching any exception a single idea's
processing raises and continuing with the next idea.  Also returns the
ids of the ideas whose processing was attempted. -/
def runIdeas (cfg : Config) (env : Env) : AgentState → List Idea → AgentState × List String
  | st, [] => (st, [])
  | st, idea :: rest =>
    let st1 := match process_idea cfg env st idea with
      | Except.ok s => s
      | Except.error _ => st
    let r := runIdeas cfg env st1 rest
    (r.1, idea.id :: r.2)

/-- `CoreAgent.run_once` (lines 382-411): take a snapshot of the
corpus; if it is empty ("No ideas found"), return immediately;
otherwise process every idea with per-idea fault isolation. -/
def run_once (cfg : Config) (env : Env) (st : AgentState) : AgentState × List String :=
  let ideas := get_all_ideas env st
  if ideas.isEmpty then (st, [])
  else runIdeas cfg env st ideas

/-- The request body of the `POST /relation` endpoint
(api/model/RelationIn.py). -/
structure RelationIn where
  source_id : String
  target_id : String
  relation_type : String
  weight : ℚ
  deriving DecidableEq

/-- The "relations" collection as the API endpoint writes it: records
keyed by id, metadata from the request body. -/
abbrev ApiRelStore := List (String × RelationIn)

/-- ChromaDB `Collection.add` on a single id: an insert.  Unlike
`upsert`, an id already present in the collection is not overwritten
(the duplicate add is rejected/ignored by the store). -/
def chromaAdd (store : ApiRelStore) (id : String) (rec : RelationIn) : ApiRelStore :=
  if store.any (fun p => decide (p.1 = id)) then store else store ++ [(id, rec)]

/-- The `add_relation` endpoint (api/main.py lines 804-820): computes
the same composite id `f"{source_id}->{target_id}:{relation_type}"`
and writes the record with `relations.add`. -/
def add_relation (store : ApiRelStore) (rel : RelationIn) : ApiRelStore :=
  chromaAdd store (relId rel.source_id rel.target_id rel.relation_type) rel

/-- The markdown-fence stripping of `determine_relation` (lines
187-194): strip the content; if it starts with "```", take the text
between the first pair of fences, drop a leading "json", strip
again. -/
def stripCodeFences (content0 : String) : String :=
  let content := content0.trim
  if content.startsWith "```" then
    let c := (content.splitOn "```").getD 1 ""
    let c2 := if c.startsWith "json" then c.drop 4 else c
    c2.trim
  else content

/-- `CoreAgent.determine_relation` (lines 134-200), abstracted over
the HTTP exchange: `response` is the classifier's message content
(`none` for any transport/HTTP error), `jsonParse` is `json.loads`
(`none` when the text is not valid JSON).  Every failure inside the
try — transport error or parse error — is caught and returned as
`None`; a successfully parsed object is returned as-is, with no schema
validation. -/
def determine_relation (jsonParse : String → Option JObj) (response : Option String) :
    Option JObj :=
  match response with
  | none => none
  | some content => jsonParse (stripCodeFences content)

/-! Basic facts about the embedded operations. -/

/-- A successful `jget` implies the object is a non-empty dict. -/
lemma jget_ok_not_isEmpty {j : JObj} {v : JVal}
    (h : jget j "relation_type" = Except.ok v) : j.isEmpty = false := by
  unfold jget at h
  cases hf : j.find? (fun p => decide (p.1 = "relation_type")) with
  | none => rw [hf] at h; exact absurd h (by simp)
  | some p =>
    cases j with
    | nil => simp [List.find?] at hf
    | cons a l => rfl

/-- Under the two skip guards, every branch of the neighbor iteration
invokes the classifier on the neighbor. -/
lemma processOneNeighbor_classified (cfg : Config) (env : Env) (idea_id b : String)
    (rels : RelStore) (h1 : b ≠ idea_id)
    (h2 : check_existing_relation (env.dedupFails idea_id b) rels idea_id b = false) :
    (processOneNeighbor cfg env idea_id rels b).classified = [b] := by
  unfold processOneNeighbor
  rw [if_neg h1, h2]
  simp only [Bool.false_eq_true, if_false]
  cases env.classify idea_id b with
  | none => rfl
  | some j =>
    dsimp only
    split
    · rfl
    · split
      · rfl
      · split
        · rfl
        · split
          · rfl
          · rfl
          · split
            · rfl
            · rfl

/-- CLAIM C8: when the relation-store query inside the dedup check
raises, the check fails open — it returns `false` ("does not exist")
instead of propagating the error — and the pair still proceeds to
classification. -/
theorem dedup_fails_open (cfg : Config) (env : Env) (idea_id b : String) (rels : RelStore)
    (hfail : env.dedupFails idea_id b = true) (hneq : b ≠ idea_id) :
    check_existing_relation (env.dedupFails idea_id b) rels idea_id b = false ∧
    b ∈ (processOneNeighbor cfg env idea_id rels b).classified := by
  have hc : check_existing_relation (env.dedupFails idea_id b) rels idea_id b = false := by
    rw [hfail]; rfl
  refine ⟨hc, ?_⟩
  rw [processOneNeighbor_classified cfg env idea_id b rels hneq hc]
  exact List.mem_singleton.mpr rfl

/-- The rational 3/4 (the configured confidence threshold 0.75),
given in normalized form so that kernel evaluation works. -/
def q34 : ℚ := ⟨3, 4, by decide, by decide⟩

/-- The rational 9/10 (a classifier confidence of 0.9). -/
def q910 : ℚ := ⟨9, 10, by decide, by decide⟩

/-- The rational 4/5 (a classifier confidence of 0.8). -/
def q45 : ℚ := ⟨4, 5, by decide, by decide⟩

/-- A default/witness configuration: `n_results = 5`,
`confidence_threshold = 0.75`. -/
def wCfg : Config := ⟨5, q34⟩

/-- Witness idea with an embedding present. -/
def wIdeaA : Idea := ⟨"A", "Caching layer", [("tags", "perf")], "caching layer reduces latency", some [1, 0]⟩

/-- Witness idea with no embedding. -/
def wIdeaB : Idea := ⟨"B", "LRU cache", [], "add an LRU cache to the API", none⟩

/-- Environment whose relation-store reads fail during dedup. -/
def c8Env : Env :=
  ⟨fun _ => Except.ok [1], fun _ _ => Except.ok [],
   fun _ _ => some [("relation_type", JVal.str "similar"), ("confidence", JVal.num q910)],
   fun _ _ => true, false, "t"⟩

/-- Witness store already holding a relation between A and B. -/
def c8Rels : RelStore := [(relId "A" "B" "similar", mkCoreRelation "A" "B" "similar" 1 "" "t0")]

theorem dedup_fails_open_witness :
    check_existing_relation (c8Env.dedupFails "A" "B") c8Rels "A" "B" = false ∧
    "B" ∈ (processOneNeighbor wCfg c8Env "A" c8Rels "B").classified :=
  dedup_fails_open wCfg c8Env "A" "B" c8Rels rfl (by decide)

/-- CLAIM C10: when listing the corpus raises a store error,
`get_all_ideas` catches it and returns the empty list, and the whole
pass is a no-op: the state is unchanged and no idea is attempted. -/
theorem list_failure_empty_pass (cfg : Config) (env : Env) (st : AgentState)
    (h : env.listFails = true) :
    get_all_ideas env st = [] ∧ run_once cfg env st = (st, []) := by
  have hg : get_all_ideas env st = [] := by
    unfold get_all_ideas
    rw [h]
    rfl
  refine ⟨hg, ?_⟩
  unfold run_once
  rw [hg]
  rfl

/-- Environment whose corpus listing fails. -/
def c10Env : Env :=
  ⟨fun _ => Except.ok [1], fun _ _ => Except.ok [], fun _ _ => none,
   fun _ _ => false, true, "t"⟩

/-- Witness state with a non-trivial corpus. -/
def c10St : AgentState := ⟨[wIdeaA, wIdeaB], []⟩

theorem list_failure_empty_pass_witness :
    get_all_ideas c10Env c10St = [] ∧ run_once wCfg c10Env c10St = (c10St, []) :=
  list_failure_empty_pass wCfg c10Env c10St rfl

/-- The pass attempts every idea of the snapshot, in order. -/
lemma runIdeas_attempted (cfg : Config) (env : Env) :
    ∀ (l : List Idea) (st : AgentState), (runIdeas cfg env st l).2 = l.map Idea.id := by
  intro l
  induction l with
  | nil => intro st; rfl
  | cons i rest ih => intro st; simp [runIdeas, ih]

/-- CLAIM C4: an exception while processing one idea (e.g. an
embedding failure) is caught by the per-idea handler: the pass state
is as if that idea were skipped, the remaining ideas are still
attempted, and a full pass attempts every listed idea and returns
normally. -/
theorem fault_isolation (cfg : Config) (env : Env) (st : AgentState) (i : Idea)
    (rest : List Idea) (hemb : embEmpty i.embedding = true)
    (hfail : ∃ e, env.embed i.document = Except.error e) :
    runIdeas cfg env st (i :: rest)
      = ((runIdeas cfg env st rest).1, i.id :: (runIdeas cfg env st rest).2) ∧
    (run_once cfg env st).2 = (get_all_ideas env st).map Idea.id := by
  obtain ⟨e, he⟩ := hfail
  have hp : process_idea cfg env st i = Except.error e := by
    simp [process_idea, update_idea_embedding, hemb, he]
  constructor
  · simp [runIdeas, hp]
  · unfold run_once
    by_cases hI : (get_all_ideas env st).isEmpty
    · have : get_all_ideas env st = [] := by simpa using hI
      simp [hI, this]
    · simp [hI, runIdeas_attempted]

/-- Environment whose embedding provider always fails. -/
def c4Env : Env :=
  ⟨fun _ => Except.error PErr.embedError, fun _ _ => Except.ok [], fun _ _ => none,
   fun _ _ => false, false, "t"⟩

/-- Witness state: idea B (no embedding) first, then idea A. -/
def c4St : AgentState := ⟨[wIdeaB, wIdeaA], []⟩

theorem fault_isolation_witness :
    runIdeas wCfg c4Env c4St (wIdeaB :: [wIdeaA])
      = ((runIdeas wCfg c4Env c4St [wIdeaA]).1, wIdeaB.id :: (runIdeas wCfg c4Env c4St [wIdeaA]).2) ∧
    (run_once wCfg c4Env c4St).2 = (get_all_ideas c4Env c4St).map Idea.id :=
  fault_isolation wCfg c4Env c4St wIdeaB [wIdeaA] rfl ⟨PErr.embedError, rfl⟩

/-! The embedding normalization (`CoreAgent.embed_text`, lines
110-132), over the reals. -/

/-- Sum of squared components (the radicand of the Euclidean norm). -/
def sumSq (l : List ℝ) : ℝ := (l.map (fun v => v * v)).sum

/-- Euclidean (L2) norm of a vector. -/
noncomputable def euclideanNorm (l : List ℝ) : ℝ := Real.sqrt (sumSq l)

open Classical in
/-- The normalization step of `CoreAgent.embed_text` (lines 126-129):
`norm = math.sqrt(sum(v*v for v in vec)) or 1.0`, then divide every
component by `norm` (a zero norm is replaced by 1). -/
noncomputable def embed_text (vec : List ℝ) : List ℝ :=
  vec.map (fun v => v / (if euclideanNorm vec = 0 then 1 else euclideanNorm vec))

lemma sumSq_nil : sumSq [] = 0 := rfl

lemma sumSq_cons (v : ℝ) (l : List ℝ) : sumSq (v :: l) = v * v + sumSq l := by
  simp [sumSq]

lemma sumSq_nonneg (l : List ℝ) : 0 ≤ sumSq l := by
  refine List.sum_nonneg ?_
  intro x hx
  obtain ⟨v, _, rfl⟩ := List.mem_map.mp hx
  exact mul_self_nonneg v

lemma sumSq_pos (l : List ℝ) (h : ¬ (∀ v ∈ l, v = 0)) : 0 < sumSq l := by
  push_neg at h
  obtain ⟨v, hv, hvne⟩ := h
  have h1 : v * v ≤ sumSq l := by
    refine List.single_le_sum ?_ _ (List.mem_map.mpr ⟨v, hv, rfl⟩)
    intro x hx
    obtain ⟨w, _, rfl⟩ := List.mem_map.mp hx
    exact mul_self_nonneg w
  exact lt_of_lt_of_le (mul_self_pos.mpr hvne) h1

lemma sumSq_map_div (l : List ℝ) (c : ℝ) :
    sumSq (l.map (fun v => v / c)) = sumSq l / (c * c) := by
  induction l with
  | nil => simp [sumSq]
  | cons v t ih =>
    rw [List.map_cons, sumSq_cons, sumSq_cons, ih, div_mul_div_comm, div_add_div_same]

/-- CLAIM C5: the embedding operation divides the raw provider vector
component-wise by its Euclidean norm, so the result has Euclidean
norm 1 — except when the raw vector is all zeros, in which case the
norm is treated as 1 and the output equals the raw input unchanged. -/
theorem embed_text_normalized (vec : List ℝ) :
    (¬ (∀ v ∈ vec, v = 0) → euclideanNorm (embed_text vec) = 1) ∧
    ((∀ v ∈ vec, v = 0) → embed_text vec = vec) := by
  constructor
  · intro h
    have hS : 0 < sumSq vec := sumSq_pos vec h
    have hn : euclideanNorm vec ≠ 0 := by
      unfold euclideanNorm
      exact ne_of_gt (Real.sqrt_pos.mpr hS)
    unfold embed_text
    rw [if_neg hn]
    unfold euclideanNorm
    rw [sumSq_map_div]
    rw [Real.mul_self_sqrt hS.le, div_self (ne_of_gt hS), Real.sqrt_one]
  · intro h
    have hS : sumSq vec = 0 := by
      apply List.sum_eq_zero
      intro x hx
      obtain ⟨v, hv, rfl⟩ := List.mem_map.mp hx
      rw [h v hv, mul_zero]
    have hn : euclideanNorm vec = 0 := by
      unfold euclideanNorm
      rw [hS, Real.sqrt_zero]
    unfold embed_text
    rw [if_pos hn]
    simp

theorem embed_text_normalized_witness :
    euclideanNorm (embed_text [(3 : ℝ), 4]) = 1 ∧ embed_text [(0 : ℝ), 0] = [0, 0] :=
  ⟨(embed_text_normalized [3, 4]).1 (by
      intro h
      have := h 3 (by simp)
      norm_num at this),
   (embed_text_normalized [0, 0]).2 (by
      intro v hv
      simp at hv
      exact hv)⟩

/-! Store-level invariants of the relation pipeline. -/

/-- Membership after an upsert: a record of the new store was already
present or is the upserted record. -/
lemma mem_upsertRel {store : RelStore} {id : String} {rec : RelationRec}
    {p : String × RelationRec} (h : p ∈ upsertRel store id rec) :
    p ∈ store ∨ p = (id, rec) := by
  unfold upsertRel at h
  rcases List.mem_append.mp h with h1 | h1
  · exact Or.inl (List.mem_of_mem_filter h1)
  · exact Or.inr (List.mem_singleton.mp h1)

/-- Each neighbor iteration either leaves the relation store unchanged
or — with both skip guards passed and a classification that parses to
a non-"none" type with an above-threshold numeric confidence —
replaces it by the corresponding `store_relation` write. -/
lemma processOneNeighbor_rels_cases (cfg : Config) (env : Env) (idea_id b : String)
    (rels : RelStore) :
    (processOneNeighbor cfg env idea_id rels b).rels = rels ∨
    (b ≠ idea_id ∧
     check_existing_relation (env.dedupFails idea_id b) rels idea_id b = false ∧
     ∃ j rt c, env.classify idea_id b = some j ∧
       jget j "relation_type" = Except.ok rt ∧ rt ≠ JVal.str "none" ∧
       jget j "confidence" = Except.ok (JVal.num c) ∧ cfg.confidence_threshold ≤ c ∧
       (processOneNeighbor cfg env idea_id rels b).rels
         = store_relation rels idea_id b (jvalFormat rt) c
             (jvalFormat (jgetD j "description" (JVal.str ""))) env.now) := by
  unfold processOneNeighbor
  by_cases h1 : b = idea_id
  · rw [if_pos h1]
    exact Or.inl rfl
  rw [if_neg h1]
  by_cases h2 : check_existing_relation (env.dedupFails idea_id b) rels idea_id b = true
  · rw [if_pos h2]
    exact Or.inl rfl
  have h2f : check_existing_relation (env.dedupFails idea_id b) rels idea_id b = false := by
    simpa using h2
  rw [if_neg h2]
  cases hcl : env.classify idea_id b with
  | none => exact Or.inl rfl
  | some j =>
    dsimp only
    by_cases hj : j.isEmpty = true
    · rw [if_pos hj]
      exact Or.inl rfl
    rw [if_neg hj]
    cases hrt : jget j "relation_type" with
    | error e => exact Or.inl rfl
    | ok rt =>
      dsimp only
      by_cases hn : rt = JVal.str "none"
      · rw [if_pos hn]
        exact Or.inl rfl
      rw [if_neg hn]
      cases hc : jget j "confidence" with
      | error e => exact Or.inl rfl
      | ok v =>
        cases v with
        | str s => exact Or.inl rfl
        | num c =>
          dsimp only
          by_cases hth : cfg.confidence_threshold ≤ c
          · rw [if_pos hth]
            exact Or.inr ⟨h1, h2f, j, rt, c, rfl, hrt, hn, hc, hth, rfl⟩
          · rw [if_neg hth]
            exact Or.inl rfl

/-- A predicate preserved by every neighbor iteration is preserved by
the whole neighbor loop (also when the loop stops at an exception). -/
lemma processNeighbors_preserve (cfg : Config) (env : Env) (idea_id : String)
    (P : RelStore → Prop)
    (hstep : ∀ rels b, P rels → P (processOneNeighbor cfg env idea_id rels b).rels) :
    ∀ (bs : List String) (rels : RelStore),
      P rels → P (processNeighbors cfg env idea_id rels bs).rels := by
  intro bs
  induction bs with
  | nil => intro rels h; exact h
  | cons b rest ih =>
    intro rels h
    unfold processNeighbors
    dsimp only
    cases herr : (processOneNeighbor cfg env idea_id rels b).err with
    | some e => exact hstep rels b h
    | none => exact ih _ (hstep rels b h)

/-- The relation store `process_idea` returns is the input store or
the outcome of its neighbor loop on the input store. -/
lemma process_idea_relations (cfg : Config) (env : Env) (st : AgentState) (idea : Idea) :
    ∀ s, process_idea cfg env st idea = Except.ok s →
      s.relations = st.relations ∨
      ∃ nbrs, s.relations = (processNeighbors cfg env idea.id st.relations nbrs).rels := by
  intro s hs
  unfold process_idea at hs
  cases hE : (if embEmpty idea.embedding then
                update_idea_embedding env st.ideas idea.id idea.document
              else Except.ok (idea.embedding.getD [], st.ideas)) with
  | error e =>
    rw [hE] at hs
    exact absurd hs (by simp)
  | ok pr =>
    rw [hE] at hs
    obtain ⟨emb, ideas1⟩ := pr
    dsimp only at hs
    cases hq : env.queryNeighbors emb (cfg.n_results + 1) with
    | error e =>
      rw [hq] at hs
      simp only [Except.ok.injEq] at hs
      left
      rw [← hs]
    | ok nbrs =>
      rw [hq] at hs
      simp only [Except.ok.injEq] at hs
      right
      exact ⟨nbrs, by rw [← hs]⟩

/-- A predicate on the relation store preserved by every neighbor
iteration (for every processed idea) is preserved by the per-idea loop
of a pass. -/
lemma runIdeas_preserve (cfg : Config) (env : Env) (P : RelStore → Prop)
    (hstep : ∀ idea_id rels b, P rels → P (processOneNeighbor cfg env idea_id rels b).rels) :
    ∀ (l : List Idea) (st : AgentState),
      P st.relations → P ((runIdeas cfg env st l).1).relations := by
  intro l
  induction l with
  | nil => intro st h; exact h
  | cons i rest ih =>
    intro st h
    unfold runIdeas
    dsimp only
    cases hpi : process_idea cfg env st i with
    | error e => exact ih st h
    | ok s =>
      refine ih s ?_
      rcases process_idea_relations cfg env st i s hpi with h1 | ⟨nbrs, h1⟩
      · rw [h1]; exact h
      · rw [h1]
        exact processNeighbors_preserve cfg env i.id P (fun r b hP => hstep i.id r b hP)
          nbrs st.relations h

/-- A predicate on the relation store preserved by every neighbor
iteration is an invariant of a full pass. -/
lemma run_once_preserve (cfg : Config) (env : Env) (P : RelStore → Prop)
    (hstep : ∀ idea_id rels b, P rels → P (processOneNeighbor cfg env idea_id rels b).rels)
    (st : AgentState) (h : P st.relations) :
    P ((run_once cfg env st).1).relations := by
  unfold run_once
  dsimp only
  by_cases hI : (get_all_ideas env st).isEmpty
  · rw [if_pos hI]
    exact h
  · rw [if_neg hI]
    exact runIdeas_preserve cfg env P hstep _ st h

/-- No stored relation is a self-loop. -/
def NoSelfRelations (rels : RelStore) : Prop :=
  ∀ p ∈ rels, p.2.source_id ≠ p.2.target_id

/-- One neighbor iteration preserves `NoSelfRelations`: the only write
has the processed idea as source and a neighbor that passed the
self-skip guard as target. -/
lemma step_noSelf (cfg : Config) (env : Env) (idea_id : String) (rels : RelStore)
    (b : String) (h : NoSelfRelations rels) :
    NoSelfRelations (processOneNeighbor cfg env idea_id rels b).rels := by
  rcases processOneNeighbor_rels_cases cfg env idea_id b rels with
    heq | ⟨h1, _, j, rt, c, _, _, _, _, _, heq⟩
  · rw [heq]
    exact h
  · rw [heq]
    unfold store_relation
    intro p hp
    rcases mem_upsertRel hp with hp1 | hp1
    · exact h p hp1
    · rw [hp1]
      intro hcontra
      have hid : idea_id = b := by simpa [mkCoreRelation] using hcontra
      exact h1 hid.symm

/-- CLAIM C7: for every idea A, the pipeline never persists a relation
with source and target both A — a pass preserves the absence of
self-relations. -/
theorem no_self_relations_invariant (cfg : Config) (env : Env) (st : AgentState)
    (h : NoSelfRelations st.relations) :
    NoSelfRelations ((run_once cfg env st).1).relations :=
  run_once_preserve cfg env NoSelfRelations
    (fun i r b hP => step_noSelf cfg env i r b hP) st h

/-- Environment with a healthy store and one qualifying neighbor
pair (A, B). -/
def goodEnv : Env :=
  ⟨fun _ => Except.ok [1, 0], fun _ _ => Except.ok ["A", "B"],
   fun a b => if a = "A" ∧ b = "B" then
       some [("relation_type", JVal.str "extends"), ("confidence", JVal.num q910),
             ("description", JVal.str "B builds on A")]
     else none,
   fun _ _ => false, false, "2025-01-01T00:00:00"⟩

/-- Witness state: two ideas, empty relation store. -/
def goodSt : AgentState := ⟨[wIdeaA, wIdeaB], []⟩

theorem no_self_relations_invariant_witness :
    NoSelfRelations ((run_once wCfg goodEnv goodSt).1).relations :=
  no_self_relations_invariant wCfg goodEnv goodSt
    (fun p hp => absurd hp (List.not_mem_nil p))

/-- At most one stored relation between any unordered pair of
distinct ideas, in either direction, of any type. -/
def AtMostOnePerPair (rels : RelStore) : Prop :=
  ∀ a b : String, a ≠ b → pairCount rels a b ≤ 1

lemma relationMatches_comm (a b : String) (r : RelationRec) :
    relationMatches a b r ↔ relationMatches b a r := by
  unfold relationMatches
  tauto

lemma pairCount_comm (rels : RelStore) (a b : String) :
    pairCount rels a b = pairCount rels b a := by
  unfold pairCount
  congr 1
  apply List.filter_congr
  intro p _
  exact decide_eq_decide.mpr (relationMatches_comm a b p.2)

lemma pairCount_filter_le (rels : RelStore) (q : String × RelationRec → Bool)
    (a b : String) : pairCount (rels.filter q) a b ≤ pairCount rels a b :=
  List.Sublist.length_le (List.Sublist.filter _ (List.filter_sublist rels))

lemma pairCount_append (rels1 rels2 : RelStore) (a b : String) :
    pairCount (rels1 ++ rels2) a b = pairCount rels1 a b + pairCount rels2 a b := by
  unfold pairCount
  rw [List.filter_append, List.length_append]

/-- A dedup check that returned `false` with a healthy store read
means no record matches the pair in either direction. -/
lemma check_false_pairCount_zero (rels : RelStore) (a b : String)
    (h : check_existing_relation false rels a b = false) : pairCount rels a b = 0 := by
  unfold check_existing_relation at h
  rw [if_neg Bool.false_ne_true] at h
  have h2 : ¬ 0 < (dedupQueryIds rels a b).length := of_decide_eq_false h
  have hlen : (dedupQueryIds rels a b).length = 0 := Nat.eq_zero_of_not_pos h2
  unfold dedupQueryIds at hlen
  rw [List.length_map] at hlen
  exact hlen

/-- Writing a relation for a pair that the (healthy) dedup check found
unrelated preserves the at-most-one invariant. -/
lemma atMostOne_store_relation (rels : RelStore) (A B ty d now : String) (c : ℚ)
    (hzero : pairCount rels A B = 0) (hinv : AtMostOnePerPair rels) :
    AtMostOnePerPair (store_relation rels A B ty c d now) := by
  intro a b hab
  unfold store_relation upsertRel
  rw [pairCount_append]
  by_cases hm : relationMatches a b (mkCoreRelation A B ty c d now)
  · have hcase : (A = a ∧ B = b) ∨ (A = b ∧ B = a) := by
      simpa [relationMatches, mkCoreRelation] using hm
    have h0 : pairCount rels a b = 0 := by
      rcases hcase with ⟨rfl, rfl⟩ | ⟨rfl, rfl⟩
      · exact hzero
      · rw [pairCount_comm]
        exact hzero
    have hf : pairCount (rels.filter (fun p => decide (p.1 ≠ relId A B ty))) a b = 0 :=
      Nat.le_zero.mp (h0 ▸ pairCount_filter_le rels _ a b)
    have h1 : pairCount [(relId A B ty, mkCoreRelation A B ty c d now)] a b = 1 := by
      unfold pairCount
      simp [hm]
    rw [hf, h1]
  · have h1 : pairCount [(relId A B ty, mkCoreRelation A B ty c d now)] a b = 0 := by
      unfold pairCount
      simp [hm]
    rw [h1]
    calc pairCount (rels.filter (fun p => decide (p.1 ≠ relId A B ty))) a b + 0
        ≤ pairCount rels a b := by simpa using pairCount_filter_le rels _ a b
      _ ≤ 1 := hinv a b hab

/-- One neighbor iteration preserves the at-most-one invariant when
the dedup store reads succeed. -/
lemma step_atMostOne (cfg : Config) (env : Env) (idea_id : String) (rels : RelStore)
    (b : String) (hded : ∀ x y, env.dedupFails x y = false)
    (h : AtMostOnePerPair rels) :
    AtMostOnePerPair (processOneNeighbor cfg env idea_id rels b).rels := by
  rcases processOneNeighbor_rels_cases cfg env idea_id b rels with
    heq | ⟨h1, h2, j, rt, c, _, _, _, _, _, heq⟩
  · rw [heq]
    exact h
  · rw [heq]
    rw [hded idea_id b] at h2
    exact atMostOne_store_relation rels idea_id b _ _ env.now c
      (check_false_pairCount_zero rels idea_id b h2) h

/-- CLAIM C1 (amended): as long as every dedup store query succeeds,
a pass preserves the invariant that at most one relation record exists
per unordered pair of distinct ideas, in either orientation and of any
type — the dedup check in both orderings guards every write. -/
theorem undirected_dedup_of_dedup_ok (cfg : Config) (env : Env) (st : AgentState)
    (hded : ∀ a b, env.dedupFails a b = false)
    (hinv : AtMostOnePerPair st.relations) :
    AtMostOnePerPair ((run_once cfg env st).1).relations :=
  run_once_preserve cfg env AtMostOnePerPair
    (fun i r b hP => step_atMostOne cfg env i r b hded hP) st hinv

theorem undirected_dedup_of_dedup_ok_witness :
    AtMostOnePerPair ((run_once wCfg goodEnv goodSt).1).relations :=
  undirected_dedup_of_dedup_ok wCfg goodEnv goodSt (fun _ _ => rfl)
    (fun _ _ _ => Nat.zero_le 1)

/-- Environment in which every dedup store read raises (the guard
fails open) and the classifier reports "extends" for (A, B). -/
def c1cxEnv : Env :=
  ⟨fun _ => Except.ok [1, 0], fun _ _ => Except.ok ["B"],
   fun a b => if a = "A" ∧ b = "B" then
       some [("relation_type", JVal.str "extends"), ("confidence", JVal.num q910)]
     else none,
   fun _ _ => true, false, "t1"⟩

/-- State already holding an A→B relation of type "similar". -/
def c1cxSt : AgentState :=
  ⟨[wIdeaA], [(relId "A" "B" "similar", mkCoreRelation "A" "B" "similar" q45 "" "t0")]⟩

/-- CLAIM C1 counterexample: with an existing A→B relation and a
failing dedup store read, one pass stores a second record for the
unordered pair {A, B} ("A->B:extends"), so the unconditional
at-most-one property is false. -/
theorem undirected_dedup_cx :
    ¬ AtMostOnePerPair ((run_once wCfg c1cxEnv c1cxSt).1).relations := by
  intro h
  have h2 := h "A" "B" (by decide)
  have h3 : pairCount ((run_once wCfg c1cxEnv c1cxSt).1).relations "A" "B" = 2 := by decide
  rw [h3] at h2
  exact absurd h2 (by decide)

/-! The confidence gate (claim C2) and classification failures
(claim C6). -/

/-- A null classification (the caught-exception path of
`determine_relation`) leaves the store unchanged: the pair is skipped
with no side effect and no exception. -/
lemma processOneNeighbor_none (cfg : Config) (env : Env) (idea_id b : String)
    (rels : RelStore) (h1 : b ≠ idea_id)
    (h2 : check_existing_relation (env.dedupFails idea_id b) rels idea_id b = false)
    (hcl : env.classify idea_id b = none) :
    processOneNeighbor cfg env idea_id rels b = ⟨rels, [b], none⟩ := by
  unfold processOneNeighbor
  rw [if_neg h1, h2]
  simp only [Bool.false_eq_true, if_false]
  rw [hcl]

/-- A well-formed classification (string type, numeric confidence) is
persisted exactly when the type is not "none" and the confidence
clears the threshold. -/
lemma processOneNeighbor_wellformed (cfg : Config) (env : Env) (idea_id b : String)
    (rels : RelStore) (j : JObj) (ty : String) (c : ℚ) (h1 : b ≠ idea_id)
    (h2 : check_existing_relation (env.dedupFails idea_id b) rels idea_id b = false)
    (hcl : env.classify idea_id b = some j)
    (hrt : jget j "relation_type" = Except.ok (JVal.str ty))
    (hc : jget j "confidence" = Except.ok (JVal.num c)) :
    processOneNeighbor cfg env idea_id rels b =
      if ty ≠ "none" ∧ cfg.confidence_threshold ≤ c then
        ⟨store_relation rels idea_id b ty c
            (jvalFormat (jgetD j "description" (JVal.str ""))) env.now, [b], none⟩
      else ⟨rels, [b], none⟩ := by
  unfold processOneNeighbor
  rw [if_neg h1, h2]
  simp only [Bool.false_eq_true, if_false]
  rw [hcl]
  dsimp only
  rw [jget_ok_not_isEmpty hrt]
  simp only [Bool.false_eq_true, if_false]
  rw [hrt]
  dsimp only
  by_cases hn : ty = "none"
  · rw [if_pos (by rw [hn])]
    rw [if_neg (by simp [hn])]
  · rw [if_neg (by simp [hn])]
    rw [hc]
    dsimp only
    by_cases hth : cfg.confidence_threshold ≤ c
    · rw [if_pos hth, if_pos ⟨hn, hth⟩]
      rfl
    · rw [if_neg hth, if_neg (by simp [hth])]

/-- The qualifying-classification condition that licenses a write for
the ordered pair (idea, neighbor): classification returned an object
whose `relation_type` is present and differs from "none" and whose
`confidence` is a number clearing the configured threshold. -/
def GateWrite (cfg : Config) (env : Env) (idea_id b : String) (j : JObj)
    (rt : JVal) (c : ℚ) : Prop :=
  env.classify idea_id b = some j ∧
  jget j "relation_type" = Except.ok rt ∧ rt ≠ JVal.str "none" ∧
  jget j "confidence" = Except.ok (JVal.num c) ∧ cfg.confidence_threshold ≤ c

/-- Any record present after one neighbor iteration was already
present, or is the write of a qualifying classification for that
neighbor. -/
lemma step_mem_sound (cfg : Config) (env : Env) (idea_id b : String) (rels : RelStore)
    (p : String × RelationRec) (hp : p ∈ (processOneNeighbor cfg env idea_id rels b).rels) :
    p ∈ rels ∨ ∃ j rt c, GateWrite cfg env idea_id b j rt c ∧
      p = (relId idea_id b (jvalFormat rt),
           mkCoreRelation idea_id b (jvalFormat rt) c
             (jvalFormat (jgetD j "description" (JVal.str ""))) env.now) := by
  rcases processOneNeighbor_rels_cases cfg env idea_id b rels with
    heq | ⟨_, _, j, rt, c, hcl, hrt, hn, hc, hth, heq⟩
  · rw [heq] at hp
    exact Or.inl hp
  · rw [heq] at hp
    unfold store_relation at hp
    rcases mem_upsertRel hp with h | h
    · exact Or.inl h
    · exact Or.inr ⟨j, rt, c, ⟨hcl, hrt, hn, hc, hth⟩, h⟩

/-- The neighbor loop's store decomposes through its first element. -/
lemma processNeighbors_cons_rels (cfg : Config) (env : Env) (idea_id : String)
    (rels : RelStore) (b : String) (rest : List String) :
    (processNeighbors cfg env idea_id rels (b :: rest)).rels
      = (processOneNeighbor cfg env idea_id rels b).rels ∨
    (processNeighbors cfg env idea_id rels (b :: rest)).rels
      = (processNeighbors cfg env idea_id
          (processOneNeighbor cfg env idea_id rels b).rels rest).rels := by
  cases herr : (processOneNeighbor cfg env idea_id rels b).err with
  | some e =>
    left
    simp only [processNeighbors, herr]
  | none =>
    right
    simp only [processNeighbors, herr]

/-- Any record present after the neighbor loop was already present, or
is the write of a qualifying classification for one of the neighbors. -/
lemma processNeighbors_sound (cfg : Config) (env : Env) (idea_id : String) :
    ∀ (bs : List String) (rels : RelStore) (p : String × RelationRec),
      p ∈ (processNeighbors cfg env idea_id rels bs).rels →
      p ∈ rels ∨ ∃ b' ∈ bs, ∃ j rt c, GateWrite cfg env idea_id b' j rt c ∧
        p = (relId idea_id b' (jvalFormat rt),
             mkCoreRelation idea_id b' (jvalFormat rt) c
               (jvalFormat (jgetD j "description" (JVal.str ""))) env.now) := by
  intro bs
  induction bs with
  | nil => intro rels p hp; exact Or.inl hp
  | cons b rest ih =>
    intro rels p hp
    have hstep : ∀ q, q ∈ (processOneNeighbor cfg env idea_id rels b).rels →
        q ∈ rels ∨ ∃ b' ∈ b :: rest, ∃ j rt c, GateWrite cfg env idea_id b' j rt c ∧
          q = (relId idea_id b' (jvalFormat rt),
               mkCoreRelation idea_id b' (jvalFormat rt) c
                 (jvalFormat (jgetD j "description" (JVal.str ""))) env.now) := by
      intro q hq
      rcases step_mem_sound cfg env idea_id b rels q hq with h | ⟨j, rt, c, hg, hrec⟩
      · exact Or.inl h
      · exact Or.inr ⟨b, List.mem_cons_self b rest, j, rt, c, hg, hrec⟩
    rcases processNeighbors_cons_rels cfg env idea_id rels b rest with he | he
    · rw [he] at hp
      exact hstep p hp
    · rw [he] at hp
      rcases ih _ p hp with h | ⟨b', hb', j, rt, c, hg, hrec⟩
      · exact hstep p h
      · exact Or.inr ⟨b', List.mem_cons_of_mem b hb', j, rt, c, hg, hrec⟩

/-- The full claimed behavior of the confidence gate for a pair that
reaches classification, plus the loop-level guarantee that every new
record stems from a qualifying classification. -/
def ConfidenceGateSpec (cfg : Config) (env : Env) (idea_id b : String)
    (rels : RelStore) (bs : List String) : Prop :=
  (env.classify idea_id b = none →
    (processOneNeighbor cfg env idea_id rels b).rels = rels) ∧
  (∀ j ty c, env.classify idea_id b = some j →
    jget j "relation_type" = Except.ok (JVal.str ty) →
    jget j "confidence" = Except.ok (JVal.num c) →
    ((ty ≠ "none" ∧ cfg.confidence_threshold ≤ c →
      (processOneNeighbor cfg env idea_id rels b).rels
        = store_relation rels idea_id b ty c
            (jvalFormat (jgetD j "description" (JVal.str ""))) env.now) ∧
     (ty = "none" ∨ c < cfg.confidence_threshold →
      (processOneNeighbor cfg env idea_id rels b).rels = rels))) ∧
  (∀ p ∈ (processNeighbors cfg env idea_id rels bs).rels,
    p ∈ rels ∨ ∃ b' ∈ bs, ∃ j rt c, GateWrite cfg env idea_id b' j rt c ∧
      p = (relId idea_id b' (jvalFormat rt),
           mkCoreRelation idea_id b' (jvalFormat rt) c
             (jvalFormat (jgetD j "description" (JVal.str ""))) env.now))

/-- CLAIM C2: a relation is persisted for a classified pair iff the
classification is non-null with type ≠ "none" and confidence ≥ the
threshold; null, "none" or sub-threshold classifications write
nothing, and every record the loop adds comes from such a qualifying
classification. -/
theorem confidence_gate (cfg : Config) (env : Env) (idea_id b : String)
    (rels : RelStore) (bs : List String) (hb : b ≠ idea_id)
    (hd : check_existing_relation (env.dedupFails idea_id b) rels idea_id b = false) :
    ConfidenceGateSpec cfg env idea_id b rels bs := by
  refine ⟨?_, ?_, ?_⟩
  · intro hcl
    rw [processOneNeighbor_none cfg env idea_id b rels hb hd hcl]
  · intro j ty c hcl hrt hc
    constructor
    · intro hq
      rw [processOneNeighbor_wellformed cfg env idea_id b rels j ty c hb hd hcl hrt hc,
        if_pos hq]
    · intro hskip
      rw [processOneNeighbor_wellformed cfg env idea_id b rels j ty c hb hd hcl hrt hc,
        if_neg ?_]
      rcases hskip with h | h
      · exact fun hq => hq.1 h
      · exact fun hq => absurd hq.2 (not_le.mpr h)
  · exact processNeighbors_sound cfg env idea_id bs rels

theorem confidence_gate_witness :
    ConfidenceGateSpec wCfg goodEnv "A" "B" [] ["A", "B"] :=
  confidence_gate wCfg goodEnv "A" "B" [] ["A", "B"] (by decide) (by decide)

/-- A classification object whose `relation_type` key is missing makes
the dict subscript raise `KeyError`, aborting the rest of this idea's
neighbor loop. -/
lemma processOneNeighbor_keyerror (cfg : Config) (env : Env) (idea_id b : String)
    (rels : RelStore) (j : JObj) (h1 : b ≠ idea_id)
    (h2 : check_existing_relation (env.dedupFails idea_id b) rels idea_id b = false)
    (hcl : env.classify idea_id b = some j) (hj : j.isEmpty = false)
    (hrt : jget j "relation_type" = Except.error PErr.keyError) :
    processOneNeighbor cfg env idea_id rels b = ⟨rels, [b], some PErr.keyError⟩ := by
  unfold processOneNeighbor
  rw [if_neg h1, h2]
  simp only [Bool.false_eq_true, if_false]
  rw [hcl]
  dsimp only
  rw [hj]
  simp only [Bool.false_eq_true, if_false]
  rw [hrt]

/-- The amended behavior of classification failures: transport errors
and unparseable responses yield null and skip exactly one pair; a
valid-JSON schema violation is returned non-null and the resulting
`KeyError` aborts the remaining neighbors of the current idea; the
per-idea handler still returns normally. -/
def ClassifyFailSpec (cfg : Config) (env : Env) (idea_id b : String) (rels : RelStore)
    (rest : List String) (parse : String → Option JObj) (s : String) : Prop :=
  (parse (stripCodeFences s) = none → determine_relation parse (some s) = none) ∧
  (determine_relation parse none = none) ∧
  (env.classify idea_id b = none →
    processNeighbors cfg env idea_id rels (b :: rest)
      = ⟨(processNeighbors cfg env idea_id rels rest).rels,
         b :: (processNeighbors cfg env idea_id rels rest).classified,
         (processNeighbors cfg env idea_id rels rest).err⟩) ∧
  (∀ j, env.classify idea_id b = some j → j.isEmpty = false →
    jget j "relation_type" = Except.error PErr.keyError →
    processNeighbors cfg env idea_id rels (b :: rest) = ⟨rels, [b], some PErr.keyError⟩) ∧
  (∀ (st : AgentState) (idea : Idea), embEmpty idea.embedding = false →
    ∃ st', process_idea cfg env st idea = Except.ok st')

/-- CLAIM C6 (amended): a null classification (transport error or
unparseable text) skips only that pair and the loop continues; a
schema-violating but parseable classification is returned non-null and
its `KeyError` stops the remaining neighbors of the current idea,
while `process_idea` still returns normally (the pass continues with
the next idea). -/
theorem classification_failure_amended (cfg : Config) (env : Env) (idea_id b : String)
    (rels : RelStore) (rest : List String) (parse : String → Option JObj) (s : String)
    (hb : b ≠ idea_id)
    (hd : check_existing_relation (env.dedupFails idea_id b) rels idea_id b = false) :
    ClassifyFailSpec cfg env idea_id b rels rest parse s := by
  refine ⟨?_, rfl, ?_, ?_, ?_⟩
  · intro hp
    unfold determine_relation
    exact hp
  · intro hcl
    have h0 := processOneNeighbor_none cfg env idea_id b rels hb hd hcl
    simp only [processNeighbors, h0, List.singleton_append]
  · intro j hcl hj hrt
    have h0 := processOneNeighbor_keyerror cfg env idea_id b rels j hb hd hcl hj hrt
    simp only [processNeighbors, h0]
  · intro st idea he
    unfold process_idea
    have hne : ¬ (embEmpty idea.embedding = true) := by
      rw [he]
      exact Bool.false_ne_true
    rw [if_neg hne]
    dsimp only
    cases env.queryNeighbors (idea.embedding.getD []) (cfg.n_results + 1) with
    | error e => exact ⟨_, rfl⟩
    | ok nbrs => exact ⟨_, rfl⟩

/-- Environment for the schema-violation counterexample: the
classifier answers the pair (A, B) with valid JSON missing
`relation_type`, and the pair (A, C) with a qualifying "similar". -/
def c6Env : Env :=
  ⟨fun _ => Except.ok [1, 0], fun _ _ => Except.ok ["B", "C"],
   fun a b =>
     if a = "A" ∧ b = "B" then some [("confidence", JVal.num q910)]
     else if a = "A" ∧ b = "C" then
       some [("relation_type", JVal.str "similar"), ("confidence", JVal.num q910)]
     else none,
   fun _ _ => false, false, "t"⟩

/-- CLAIM C6 counterexample: on a schema-violating (yet parsed,
non-null) classification for (A, B), the loop aborts with `KeyError`
before reaching neighbor C, so C's qualifying relation is never
persisted — more than the single offending pair is skipped. -/
theorem classification_schema_cx :
    c6Env.classify "A" "B" ≠ none ∧
    processNeighbors wCfg c6Env "A" [] ["B", "C"]
      = ⟨[], ["B"], some PErr.keyError⟩ := by
  exact ⟨by decide, by decide⟩

theorem classification_failure_amended_witness :
    ClassifyFailSpec wCfg goodEnv "A" "C" [] ["B"] (fun _ => none) "not json" :=
  classification_failure_amended wCfg goodEnv "A" "C" [] ["B"] (fun _ => none)
    "not json" (by decide) (by decide)

/-! Persistence identity and idempotence (claim C3). -/

/-- Number of records stored under a given id (agent store). -/
def countId (store : RelStore) (id : String) : Nat :=
  (store.filter (fun p => decide (p.1 = id))).length

/-- Number of records stored under a given id (API store). -/
def countIdApi (store : ApiRelStore) (id : String) : Nat :=
  (store.filter (fun p => decide (p.1 = id))).length

lemma filter_ne_then_eq_nil (store : RelStore) (id : String) :
    (store.filter (fun p => decide (p.1 ≠ id))).filter (fun p => decide (p.1 = id)) = [] := by
  induction store with
  | nil => rfl
  | cons x rest ih =>
    by_cases hx : x.1 = id
    · rw [List.filter_cons, if_neg (by simp [hx])]
      exact ih
    · rw [List.filter_cons, if_pos (by simp [hx]), List.filter_cons, if_neg (by simp [hx])]
      exact ih

/-- An upsert leaves exactly one record under the upserted id. -/
lemma countId_upsertRel (store : RelStore) (id : String) (rec : RelationRec) :
    countId (upsertRel store id rec) id = 1 := by
  unfold countId upsertRel
  rw [List.filter_append, filter_ne_then_eq_nil]
  simp

lemma mem_upsertRel_self (store : RelStore) (id : String) (rec : RelationRec) :
    (id, rec) ∈ upsertRel store id rec := by
  unfold upsertRel
  exact List.mem_append.mpr (Or.inr (List.mem_singleton.mpr rfl))

lemma any_eq_false_countIdApi (store : ApiRelStore) (id : String)
    (h : store.any (fun p => decide (p.1 = id)) = false) : countIdApi store id = 0 := by
  unfold countIdApi
  rw [List.length_eq_zero]
  rw [List.filter_eq_nil_iff]
  intro p hp
  have := List.any_eq_false.mp h p hp
  simpa using this

/-- The amended persistence property.  Direct-DB mode: `store_relation`
computes the composite id and upserts, so persisting the same triple
twice leaves exactly one record under that id, carrying the second
write's fields (last write wins).  API mode: `add_relation` computes
the same composite id but writes with `add`, so the second persist
leaves the first write's record untouched (first write wins) — still
exactly one record under that id. -/
def PersistSpec (rels : RelStore) (api : ApiRelStore) (s t ty : String)
    (c1 c2 : ℚ) (d1 d2 n1 n2 : String) (r1 r2 : RelationIn) : Prop :=
  (countId (store_relation (store_relation rels s t ty c1 d1 n1) s t ty c2 d2 n2)
      (relId s t ty) = 1 ∧
   (relId s t ty, mkCoreRelation s t ty c2 d2 n2)
      ∈ store_relation (store_relation rels s t ty c1 d1 n1) s t ty c2 d2 n2) ∧
  (add_relation (add_relation api r1) r2 = api ++ [(relId s t ty, r1)] ∧
   countIdApi (add_relation (add_relation api r1) r2) (relId s t ty) = 1)

/-- CLAIM C3 (amended): both persisters key the record by
`source_id -> target_id : relation_type`; the agent's direct-DB path
upserts (idempotent, last write wins), while the API path only adds
(the second write of the same triple does not replace the record). -/
theorem idempotent_persist_amended (rels : RelStore) (api : ApiRelStore)
    (s t ty : String) (c1 c2 : ℚ) (d1 d2 n1 n2 : String) (r1 r2 : RelationIn)
    (hr1 : r1.source_id = s ∧ r1.target_id = t ∧ r1.relation_type = ty)
    (hr2 : r2.source_id = s ∧ r2.target_id = t ∧ r2.relation_type = ty)
    (hfresh : api.any (fun p => decide (p.1 = relId s t ty)) = false) :
    PersistSpec rels api s t ty c1 c2 d1 d2 n1 n2 r1 r2 := by
  obtain ⟨h1s, h1t, h1y⟩ := hr1
  obtain ⟨h2s, h2t, h2y⟩ := hr2
  have hadd1 : add_relation api r1 = api ++ [(relId s t ty, r1)] := by
    unfold add_relation chromaAdd
    rw [h1s, h1t, h1y, hfresh]
    simp
  have hany2 : (api ++ [(relId s t ty, r1)]).any
      (fun p => decide (p.1 = relId s t ty)) = true := by
    rw [List.any_append]
    simp
  have hadd2 : add_relation (add_relation api r1) r2 = api ++ [(relId s t ty, r1)] := by
    rw [hadd1]
    unfold add_relation chromaAdd
    rw [h2s, h2t, h2y, hany2]
    simp
  refine ⟨⟨?_, ?_⟩, hadd2, ?_⟩
  · unfold store_relation
    exact countId_upsertRel _ _ _
  · unfold store_relation
    exact mem_upsertRel_self _ _ _
  · rw [hadd2]
    unfold countIdApi
    rw [List.filter_append]
    rw [show (api.filter (fun p => decide (p.1 = relId s t ty))) = [] from
      List.filter_eq_nil_iff.mpr (fun p hp => by simpa using List.any_eq_false.mp hfresh p hp)]
    simp

/-- First API write of the pair (A, B): weight 0.8. -/
def c3r1 : RelationIn := ⟨"A", "B", "similar", q45⟩

/-- Second API write of the same triple: weight 0.9. -/
def c3r2 : RelationIn := ⟨"A", "B", "similar", q910⟩

/-- CLAIM C3 counterexample: persisting the same (source, target,
type) twice through the API endpoint leaves the first record (weight
0.8) untouched — the second write's fields are lost, so persistence
there is not an overwrite-upsert (no last-write-wins). -/
theorem idempotent_persist_cx :
    add_relation (add_relation [] c3r1) c3r2 = [(relId "A" "B" "similar", c3r1)] ∧
    (relId "A" "B" "similar", c3r2) ∉ add_relation (add_relation [] c3r1) c3r2 ∧
    c3r1.weight ≠ c3r2.weight := by
  exact ⟨by decide, by decide, by decide⟩

theorem idempotent_persist_amended_witness :
    PersistSpec [] [] "A" "B" "similar" q45 q910 "d1" "d2" "t1" "t2" c3r1 c3r2 :=
  idempotent_persist_amended [] [] "A" "B" "similar" q45 q910 "d1" "d2" "t1" "t2"
    c3r1 c3r2 (by decide) (by decide) (by decide)

/-! The idea-store frame property (claim C9). -/

/-- How a stored idea record may relate to its original after pipeline
activity: identity, title, metadata and document are unchanged, and
the embedding is either unchanged or was originally absent/empty (and
has only been populated). -/
def frameRel (o c : Idea) : Prop :=
  c.id = o.id ∧ c.title = o.title ∧ c.meta = o.meta ∧ c.document = o.document ∧
  (c.embedding = o.embedding ∨ embEmpty o.embedding = true)

/-- Pointwise frame relation between the original ideas collection and
a later snapshot of it: same records in the same positions (so nothing
deleted or inserted), each changed at most in a previously-empty
embedding. -/
def IdeasFrame (orig cur : List Idea) : Prop := List.Forall₂ frameRel orig cur

lemma ideasFrame_refl (l : List Idea) : IdeasFrame l l :=
  List.forall₂_same.mpr (fun _ _ => ⟨rfl, rfl, rfl, rfl, Or.inl rfl⟩)

/-- Writing an embedding for an id whose original records all had an
empty embedding preserves the frame relation. -/
lemma ideasFrame_update (tid : String) (v : List ℚ) :
    ∀ (orig cur : List Idea),
      (∀ o ∈ orig, o.id = tid → embEmpty o.embedding = true) →
      IdeasFrame orig cur → IdeasFrame orig (updateEmbeddingInStore cur tid v) := by
  intro orig
  induction orig with
  | nil =>
    intro cur _ hf
    cases hf
    exact List.Forall₂.nil
  | cons o os ih =>
    intro cur hemp hf
    cases hf with
    | cons hoc hrest =>
      rename_i c cs
      unfold updateEmbeddingInStore
      rw [List.map_cons]
      refine List.Forall₂.cons ?_
        (ih cs (fun o' ho' => hemp o' (List.mem_cons_of_mem _ ho')) hrest)
      by_cases hid : c.id = tid
      · rw [if_pos hid]
        obtain ⟨hcid, ht, hm, hd, _⟩ := hoc
        have hoid : o.id = tid := by
          rw [← hcid]
          exact hid
        exact ⟨hcid, ht, hm, hd, Or.inr (hemp o (List.mem_cons_self o os) hoid)⟩
      · rw [if_neg hid]
        exact hoc

/-- The ideas collection `process_idea` leaves behind: unchanged, or
with one embedding written for an idea whose snapshot embedding was
empty. -/
lemma process_idea_ideas (cfg : Config) (env : Env) (st : AgentState) (idea : Idea) :
    ∀ s, process_idea cfg env st idea = Except.ok s →
      s.ideas = st.ideas ∨
      (embEmpty idea.embedding = true ∧
       ∃ v, s.ideas = updateEmbeddingInStore st.ideas idea.id v) := by
  intro s hs
  unfold process_idea at hs
  by_cases hE : embEmpty idea.embedding = true
  · rw [if_pos hE] at hs
    unfold update_idea_embedding at hs
    cases hv : env.embed idea.document with
    | error e =>
      rw [hv] at hs
      exact absurd hs (by simp)
    | ok v =>
      rw [hv] at hs
      dsimp only at hs
      refine Or.inr ⟨hE, v, ?_⟩
      cases hq : env.queryNeighbors v (cfg.n_results + 1) with
      | error e =>
        rw [hq] at hs
        simp only [Except.ok.injEq] at hs
        rw [← hs]
      | ok nbrs =>
        rw [hq] at hs
        simp only [Except.ok.injEq] at hs
        rw [← hs]
  · rw [if_neg hE] at hs
    dsimp only at hs
    left
    cases hq : env.queryNeighbors (idea.embedding.getD []) (cfg.n_results + 1) with
    | error e =>
      rw [hq] at hs
      simp only [Except.ok.injEq] at hs
      rw [← hs]
    | ok nbrs =>
      rw [hq] at hs
      simp only [Except.ok.injEq] at hs
      rw [← hs]

/-- The per-idea loop preserves the frame relation to the original
ideas collection, provided the ids were unique (as collection ids are)
and every processed idea comes from the original snapshot. -/
lemma runIdeas_frame (cfg : Config) (env : Env) (orig : List Idea)
    (hnd : (orig.map Idea.id).Nodup) :
    ∀ (l : List Idea) (st : AgentState),
      (∀ i ∈ l, i ∈ orig) → IdeasFrame orig st.ideas →
      IdeasFrame orig ((runIdeas cfg env st l).1).ideas := by
  intro l
  induction l with
  | nil => intro st _ hf; exact hf
  | cons i rest ih =>
    intro st hmem hf
    unfold runIdeas
    dsimp only
    cases hpi : process_idea cfg env st i with
    | error e => exact ih st (fun x hx => hmem x (List.mem_cons_of_mem _ hx)) hf
    | ok s =>
      refine ih s (fun x hx => hmem x (List.mem_cons_of_mem _ hx)) ?_
      rcases process_idea_ideas cfg env st i s hpi with h1 | ⟨hE, v, h1⟩
      · rw [h1]
        exact hf
      · rw [h1]
        refine ideasFrame_update i.id v orig st.ideas ?_ hf
        intro o ho hid
        have hoi : o = i :=
          List.inj_on_of_nodup_map hnd ho (hmem i (List.mem_cons_self i rest)) hid
        rw [hoi]
        exact hE

/-- The neighbor loop never consults the embedding provider: its
outcome is the same for any two providers. -/
lemma processNeighbors_embed_irrel (cfg : Config) (env : Env)
    (f g : String → Except PErr (List ℚ)) (idea_id : String) :
    ∀ (bs : List String) (rels : RelStore),
      processNeighbors cfg { env with embed := f } idea_id rels bs
        = processNeighbors cfg { env with embed := g } idea_id rels bs := by
  intro bs
  induction bs with
  | nil => intro rels; rfl
  | cons b rest ih =>
    intro rels
    have hstep : processOneNeighbor cfg { env with embed := f } idea_id rels b
        = processOneNeighbor cfg { env with embed := g } idea_id rels b := rfl
    simp only [processNeighbors, hstep, ih]

/-- Pointwise frame implies the sequence of ids is unchanged. -/
lemma ideasFrame_map_id : ∀ {orig cur : List Idea}, IdeasFrame orig cur →
    cur.map Idea.id = orig.map Idea.id := by
  intro orig cur hf
  induction hf with
  | nil => rfl
  | cons hoc _ ih =>
    rw [List.map_cons, List.map_cons, ih, hoc.1]

/-- The full frame property of a pass over the idea records: every
record still corresponds positionally to its original (nothing
deleted), only previously-empty embeddings were written, the id
sequence is unchanged, and processing an idea whose embedding is
already non-empty never consults the embedding provider. -/
def FrameSpec (cfg : Config) (env : Env) (st : AgentState) : Prop :=
  IdeasFrame st.ideas ((run_once cfg env st).1).ideas ∧
  ((run_once cfg env st).1).ideas.map Idea.id = st.ideas.map Idea.id ∧
  (∀ (idea : Idea) (f g : String → Except PErr (List ℚ)),
    embEmpty idea.embedding = false →
    process_idea cfg { env with embed := f } st idea
      = process_idea cfg { env with embed := g } st idea)

/-- CLAIM C9: a pass mutates idea records only by writing the
embedding field of ideas whose embedding was absent or empty; ids,
titles, metadata and documents are unchanged, no idea is deleted, and
an idea that already has a non-empty embedding is not re-embedded. -/
theorem ideas_frame_invariant (cfg : Config) (env : Env) (st : AgentState)
    (hnd : (st.ideas.map Idea.id).Nodup) : FrameSpec cfg env st := by
  have hframe : IdeasFrame st.ideas ((run_once cfg env st).1).ideas := by
    unfold run_once
    dsimp only
    by_cases hI : (get_all_ideas env st).isEmpty
    · rw [if_pos hI]
      exact ideasFrame_refl _
    · rw [if_neg hI]
      refine runIdeas_frame cfg env st.ideas hnd (get_all_ideas env st) st ?_
        (ideasFrame_refl _)
      intro i hi
      unfold get_all_ideas at hi
      split at hi
      · exact absurd hi (List.not_mem_nil i)
      · exact hi
  refine ⟨hframe, ideasFrame_map_id hframe, ?_⟩
  intro idea f g he
  unfold process_idea
  have hne : ¬ (embEmpty idea.embedding = true) := by
    rw [he]
    exact Bool.false_ne_true
  rw [if_neg hne, if_neg hne]
  dsimp only
  cases env.queryNeighbors (idea.embedding.getD []) (cfg.n_results + 1) with
  | error e => rfl
  | ok nbrs =>
    dsimp only
    rw [processNeighbors_embed_irrel cfg env f g idea.id nbrs st.relations]

theorem ideas_frame_invariant_witness : FrameSpec wCfg goodEnv goodSt :=
  ideas_frame_invariant wCfg goodEnv goodSt (by decide)

end IdeaGraph
